import Mathlib

/-!
Shallow embedding of the `prob-alpha` repository (Shape.py, PhyloTree.py,
Probs.py) and verification of its specification claims.

Conventions used throughout:
* Python `None` children mark a leaf; the inductive types below therefore have
  a `leaf` constructor and a `node` constructor carrying the child list.
* Leaf labels (Python strings compared with `<`) are embedded as natural
  numbers with their linear order.
* The symbolic variable `a` of Probs.py is embedded semantically: a symbolic
  expression in `a` is a function `ℚ → ℚ` evaluating it at a rational value
  of the parameter.  The sage/sympy call `.factor()` preserves that value, so
  it is the identity in this embedding.
* Python's `sorted` is a stable sort by `__lt__`; for `Shape` and `PhyloTree`
  elements two order-equivalent values are structurally equal (proved below as
  `compare_eq_zero_iff`), so any correct sort produces the same list and we
  use `List.insertionSort` of the non-strict order.
-/

namespace ProbAlpha

/-- `Shape` (Shape.py): a label-free rooted tree, either a leaf
(`children is None`) or an internal node with a list of children. -/
inductive Shape where
  | leaf : Shape
  | node : List Shape → Shape

mutual

/-- `Shape.compare` (Shape.py lines 34-57): two leaves are equal, a leaf is
less than an internal node, internal nodes compare by child count and then
lexicographically over the (index-aligned) children.  The list helper mirrors
the `for i in range(...)` loop; the loop is only ever run on lists of equal
length, and the clauses for mismatched lengths return 0 like the empty loop. -/
def Shape.compare : Shape → Shape → Int
  | .leaf, .leaf => 0
  | .leaf, .node _ => -1
  | .node _, .leaf => 1
  | .node xs, .node ys =>
      if (xs.length : Int) - ys.length ≠ 0 then (xs.length : Int) - ys.length
      else Shape.compareChildren xs ys

/-- Loop body of `Shape.compare`: first nonzero child comparison wins. -/
def Shape.compareChildren : List Shape → List Shape → Int
  | [], _ => 0
  | _ :: _, [] => 0
  | x :: xs, y :: ys =>
      if Shape.compare x y ≠ 0 then Shape.compare x y
      else Shape.compareChildren xs ys

end

/-- `Shape.__lt__` (Shape.py lines 59-65). -/
def Shape.lt (s t : Shape) : Prop := s.compare t < 0

/-- `Shape.__le__` (Shape.py lines 67-73). -/
def Shape.le (s t : Shape) : Prop := s.compare t ≤ 0

/-- `Shape.__eq__` (Shape.py lines 75-81). -/
def Shape.equal (s t : Shape) : Prop := s.compare t = 0

/-- `Shape.__ge__` (Shape.py lines 91-97). -/
def Shape.ge (s t : Shape) : Prop := s.compare t ≥ 0

/-- `Shape.__gt__` (Shape.py lines 99-105). -/
def Shape.gt (s t : Shape) : Prop := s.compare t > 0

instance (s t : Shape) : Decidable (Shape.lt s t) := by
  unfold Shape.lt; infer_instance

instance (s t : Shape) : Decidable (Shape.le s t) := by
  unfold Shape.le; infer_instance

instance (s t : Shape) : Decidable (Shape.equal s t) := by
  unfold Shape.equal; infer_instance

instance (s t : Shape) : Decidable (Shape.gt s t) := by
  unfold Shape.gt; infer_instance

/-- `Shape.iso` (Shape.py lines 107-114): `self == T2`, i.e. the comparison
returns zero. -/
def Shape.iso (s t : Shape) : Bool := decide (s.compare t = 0)

mutual

/-- `Shape.count_leaves` (Shape.py lines 158-167). -/
def Shape.count_leaves : Shape → Nat
  | .leaf => 1
  | .node cs => Shape.countLeavesList cs

/-- Sum of leaf counts over a child list (`sum(x.count_leaves() ...)`). -/
def Shape.countLeavesList : List Shape → Nat
  | [] => 0
  | c :: cs => c.count_leaves + Shape.countLeavesList cs

end

/-- The generator test `all(self.children[0].iso(x) for x in self.children)`
of Shape.py: vacuously true on an empty list (the indexing is lazy and never
evaluated there), otherwise every child is iso to the first one. -/
def Shape.childrenAllIso : List Shape → Bool
  | [] => true
  | c :: cs => (c :: cs).all fun x => c.iso x

mutual

/-- `Shape.count_symmetries` (Shape.py lines 146-156): a leaf counts 0; an
internal node whose children are all iso to the first child counts 1 plus the
children's counts, otherwise just the children's counts. -/
def Shape.count_symmetries : Shape → Nat
  | .leaf => 0
  | .node cs =>
      if Shape.childrenAllIso cs then 1 + Shape.countSymList cs
      else Shape.countSymList cs

/-- `sum(x.count_symmetries() for x in self.children)`. -/
def Shape.countSymList : List Shape → Nat
  | [] => 0
  | c :: cs => c.count_symmetries + Shape.countSymList cs

end

/-- `Shape.shape` (Shape.py lines 169-174): the identity. -/
def Shape.shape (s : Shape) : Shape := s

/-- `Shape.labels` (Shape.py lines 176-182): always the one-element list
`[1]` (leaves of a bare shape are indistinguishable `1` markers). -/
def Shape.labels (_ : Shape) : List Nat := [1]

/-- Python error outcomes relevant to this repository: the two `assert`
statements in the constructors (named `InvalidShapeError` /
`InvalidTreeError` by the specification) and the unbound-name failure in
`Shape.sort`. -/
inductive PyError where
  | invalidShape
  | invalidTree
  | nameError
deriving DecidableEq, Repr

/-- `Shape.__init__` (Shape.py lines 15-25): `children is None` makes a leaf;
otherwise the assertion `len(children) > 0` must hold. -/
def Shape.make : Option (List Shape) → Except PyError Shape
  | none => .ok .leaf
  | some [] => .error .invalidShape
  | some (c :: cs) => .ok (.node (c :: cs))

/-- `Shape.sort` (Shape.py lines 27-32).  On a leaf the method does nothing.
On an internal node its body executes `children.sort()`, but no name
`children` is bound in that scope (the source forgot `self.`), so Python
raises `NameError` before anything is sorted. -/
def Shape.sortMethod : Shape → Except PyError Unit
  | .leaf => .ok ()
  | .node _ => .error .nameError

mutual

/-- The comparison of Shape.py is reflexive: `compare(T, T) = 0`. -/
theorem Shape.compare_self : ∀ s : Shape, s.compare s = 0
  | .leaf => rfl
  | .node cs => by
      simp [Shape.compare, Shape.compareChildren_self cs]

/-- The loop of `Shape.compare` is reflexive as well. -/
theorem Shape.compareChildren_self : ∀ cs : List Shape, Shape.compareChildren cs cs = 0
  | [] => rfl
  | c :: cs => by
      simp [Shape.compareChildren, Shape.compare_self c, Shape.compareChildren_self cs]

end

mutual

/-- Swapping the arguments of `Shape.compare` negates the result. -/
theorem Shape.compare_neg : ∀ s t : Shape, s.compare t = - t.compare s
  | .leaf, .leaf => rfl
  | .leaf, .node _ => rfl
  | .node _, .leaf => rfl
  | .node xs, .node ys => by
      have h1 := Shape.compareChildren_neg xs ys
      by_cases h : (xs.length : Int) - ys.length = 0
      · have h' : (ys.length : Int) - xs.length = 0 := by omega
        simp [Shape.compare, h, h', h1]
      · have h' : (ys.length : Int) - xs.length ≠ 0 := by omega
        simp [Shape.compare, h, h']

/-- Swapping the arguments of the comparison loop negates the result. -/
theorem Shape.compareChildren_neg :
    ∀ xs ys : List Shape, Shape.compareChildren xs ys = - Shape.compareChildren ys xs
  | [], [] => rfl
  | [], _ :: _ => rfl
  | _ :: _, [] => rfl
  | x :: xs, y :: ys => by
      have hxy := Shape.compare_neg x y
      have ih := Shape.compareChildren_neg xs ys
      by_cases h : Shape.compare x y = 0
      · have h' : Shape.compare y x = 0 := by omega
        simp [Shape.compareChildren, h, h', ih]
      · have h' : Shape.compare y x ≠ 0 := by omega
        simp [Shape.compareChildren, h, h']
        omega

end

mutual

/-- Two Shapes compare equal exactly when they are structurally identical:
the canonical-form counterpart of isomorphism for the label-free type. -/
theorem Shape.compare_eq_zero_iff : ∀ s t : Shape, s.compare t = 0 ↔ s = t
  | .leaf, .leaf => by simp [Shape.compare]
  | .leaf, .node ys => by simp [Shape.compare]
  | .node xs, .leaf => by simp [Shape.compare]
  | .node xs, .node ys => by
      by_cases h : (xs.length : Int) - ys.length = 0
      · have hlen : xs.length = ys.length := by omega
        have ih := Shape.compareChildren_eq_zero_iff xs ys hlen
        simp [Shape.compare, h, ih]
      · have hval : Shape.compare (.node xs) (.node ys) = (xs.length : Int) - ys.length := by
          simp [Shape.compare, h]
        rw [hval]
        constructor
        · intro h0; exact absurd h0 h
        · intro heq; cases heq; omega

/-- Equal-length child lists compare to zero exactly when they are equal. -/
theorem Shape.compareChildren_eq_zero_iff :
    ∀ xs ys : List Shape, xs.length = ys.length →
      (Shape.compareChildren xs ys = 0 ↔ xs = ys)
  | [], [] => by simp [Shape.compareChildren]
  | [], _ :: _ => by intro h; simp at h
  | _ :: _, [] => by intro h; simp at h
  | x :: xs, y :: ys => by
      intro hlen
      have hxy := Shape.compare_eq_zero_iff x y
      have ih := Shape.compareChildren_eq_zero_iff xs ys (by simpa using hlen)
      by_cases h : Shape.compare x y = 0
      · have hx : x = y := hxy.mp h
        subst hx
        simp [Shape.compareChildren, Shape.compare_self, ih]
      · have hx : x ≠ y := fun he => h (hxy.mpr he)
        simp [Shape.compareChildren, h, hx]

end

mutual

/-- Strict transitivity of the Shape comparison. -/
theorem Shape.compare_lt_trans :
    ∀ s t u : Shape, s.compare t < 0 → t.compare u < 0 → s.compare u < 0
  | .leaf, .leaf, _ => by
      intro h1; simp [Shape.compare] at h1
  | .leaf, .node _, .leaf => by
      intro _ h2; simp [Shape.compare] at h2
  | .leaf, .node _, .node _ => by
      intro _ _; simp [Shape.compare]
  | .node _, .leaf, _ => by
      intro h1; simp [Shape.compare] at h1
  | .node _, .node _, .leaf => by
      intro _ h2; simp [Shape.compare] at h2
  | .node xs, .node ys, .node zs => by
      intro h1 h2
      have key1 : xs.length < ys.length ∨
          (xs.length = ys.length ∧ Shape.compareChildren xs ys < 0) := by
        by_cases h : (xs.length : Int) - ys.length = 0
        · exact Or.inr ⟨by omega, by simpa [Shape.compare, h] using h1⟩
        · simp [Shape.compare, h] at h1
          exact Or.inl (by omega)
      have key2 : ys.length < zs.length ∨
          (ys.length = zs.length ∧ Shape.compareChildren ys zs < 0) := by
        by_cases h : (ys.length : Int) - zs.length = 0
        · exact Or.inr ⟨by omega, by simpa [Shape.compare, h] using h2⟩
        · simp [Shape.compare, h] at h2
          exact Or.inl (by omega)
      rcases key1 with hlt1 | ⟨heq1, hc1⟩
      · rcases key2 with hlt2 | ⟨heq2, _⟩
        · have hne : (xs.length : Int) - zs.length ≠ 0 := by omega
          simp [Shape.compare, hne]; omega
        · have hne : (xs.length : Int) - zs.length ≠ 0 := by omega
          simp [Shape.compare, hne]; omega
      · rcases key2 with hlt2 | ⟨heq2, hc2⟩
        · have hne : (xs.length : Int) - zs.length ≠ 0 := by omega
          simp [Shape.compare, hne]; omega
        · have h0 : (xs.length : Int) - zs.length = 0 := by omega
          simp [Shape.compare, h0]
          exact Shape.compareChildren_lt_trans xs ys zs heq1 heq2 hc1 hc2

/-- Strict transitivity of the child-list comparison loop. -/
theorem Shape.compareChildren_lt_trans :
    ∀ xs ys zs : List Shape, xs.length = ys.length → ys.length = zs.length →
      Shape.compareChildren xs ys < 0 → Shape.compareChildren ys zs < 0 →
      Shape.compareChildren xs zs < 0
  | [], [], [] => by
      intro _ _ h1; simp [Shape.compareChildren] at h1
  | [], [], _ :: _ => by intro _ h _; simp at h
  | [], _ :: _, _ => by intro h _; simp at h
  | _ :: _, [], _ => by intro h _; simp at h
  | _ :: _, _ :: _, [] => by intro _ h _; simp at h
  | x :: xs, y :: ys, z :: zs => by
      intro hl1 hl2 h1 h2
      have hl1' : xs.length = ys.length := by simpa using hl1
      have hl2' : ys.length = zs.length := by simpa using hl2
      by_cases hxy : Shape.compare x y = 0
      · have hx : x = y := (Shape.compare_eq_zero_iff x y).mp hxy
        subst hx
        by_cases hxz : Shape.compare x z = 0
        · simp [Shape.compareChildren, Shape.compare_self, hxz] at h1 h2 ⊢
          exact Shape.compareChildren_lt_trans xs ys zs hl1' hl2' h1 h2
        · simp [Shape.compareChildren, Shape.compare_self, hxz] at h2 ⊢
          exact h2
      · have hxy' : Shape.compare x y < 0 := by
          simpa [Shape.compareChildren, hxy] using h1
        by_cases hyz : Shape.compare y z = 0
        · have hy : y = z := (Shape.compare_eq_zero_iff y z).mp hyz
          subst hy
          simp [Shape.compareChildren, hxy]
          exact hxy'
        · have hyz' : Shape.compare y z < 0 := by
            simpa [Shape.compareChildren, hyz] using h2
          have hxz : Shape.compare x z < 0 := Shape.compare_lt_trans x y z hxy' hyz'
          have hne : Shape.compare x z ≠ 0 := by omega
          simp [Shape.compareChildren, hne]
          exact hxz

end

/-- Non-strict transitivity of the Shape comparison. -/
theorem Shape.compare_le_trans (s t u : Shape)
    (h1 : s.compare t ≤ 0) (h2 : t.compare u ≤ 0) : s.compare u ≤ 0 := by
  rcases eq_or_lt_of_le h1 with he1 | hl1
  · have hst : s = t := (Shape.compare_eq_zero_iff s t).mp he1
    subst hst; exact h2
  · rcases eq_or_lt_of_le h2 with he2 | hl2
    · have htu : t = u := (Shape.compare_eq_zero_iff t u).mp he2
      subst htu; exact le_of_lt hl1
    · exact le_of_lt (Shape.compare_lt_trans s t u hl1 hl2)

instance : IsTotal Shape Shape.le :=
  ⟨fun s t => by
    unfold Shape.le
    have := Shape.compare_neg s t
    omega⟩

instance : IsTrans Shape Shape.le :=
  ⟨fun s t u h1 h2 => Shape.compare_le_trans s t u h1 h2⟩

instance : IsAntisymm Shape Shape.le :=
  ⟨fun s t h1 h2 => by
    have hn := Shape.compare_neg s t
    have h0 : Shape.compare s t = 0 := by
      unfold Shape.le at h1 h2
      omega
    exact (Shape.compare_eq_zero_iff s t).mp h0⟩

instance : DecidableRel Shape.le :=
  fun s t => inferInstanceAs (Decidable (Shape.compare s t ≤ 0))

/-- Sorting by the Shape order is permutation-invariant: two lists with the
same multiset of Shapes sort to the same list (ties are identical Shapes). -/
theorem Shape.insertionSort_eq_of_perm {l₁ l₂ : List Shape} (h : l₁.Perm l₂) :
    List.insertionSort Shape.le l₁ = List.insertionSort Shape.le l₂ :=
  List.eq_of_perm_of_sorted
    (((List.perm_insertionSort _ l₁).trans h).trans (List.perm_insertionSort _ l₂).symm)
    (List.sorted_insertionSort _ l₁) (List.sorted_insertionSort _ l₂)

/-- `iso` on Shapes is exactly structural equality. -/
theorem Shape.iso_iff_eq (s t : Shape) : s.iso t = true ↔ s = t := by
  simp [Shape.iso, Shape.compare_eq_zero_iff]

/-- A child list is sorted ascending under the Shape order: every adjacent
pair compares `≤ 0`.  This is the canonical-form condition of the spec. -/
def Shape.childrenSortedB : List Shape → Bool
  | [] => true
  | [_] => true
  | x :: y :: rest => decide (x.compare y ≤ 0) && Shape.childrenSortedB (y :: rest)

mutual

/-- Canonical-form invariant: at every internal node the children sequence is
sorted ascending under the Shape order. -/
def Shape.isCanonicalB : Shape → Bool
  | .leaf => true
  | .node cs => Shape.childrenSortedB cs && Shape.allCanonicalB cs

/-- Every member of the list satisfies the canonical-form invariant. -/
def Shape.allCanonicalB : List Shape → Bool
  | [] => true
  | c :: cs => Shape.isCanonicalB c && Shape.allCanonicalB cs

end

/-- Pairwise formulation of a symmetric node used by the specification: all
immediate children are pairwise isomorphic to each other. -/
def Shape.pairwiseIsoB (cs : List Shape) : Bool :=
  cs.all fun x => cs.all fun y => x.iso y

mutual

/-- Specification-side symmetric-node counter: internal nodes whose children
are all *pairwise* isomorphic count one, summed recursively. -/
def Shape.symNodesSpec : Shape → Nat
  | .leaf => 0
  | .node cs => (if Shape.pairwiseIsoB cs then 1 else 0) + Shape.symNodesSpecList cs

/-- Sum of `symNodesSpec` over a list. -/
def Shape.symNodesSpecList : List Shape → Nat
  | [] => 0
  | c :: cs => c.symNodesSpec + Shape.symNodesSpecList cs

end

/-- The code's all-iso-to-the-first-child test agrees with the spec's
pairwise-isomorphic test. -/
theorem Shape.childrenAllIso_iff (cs : List Shape) :
    Shape.childrenAllIso cs = true ↔ Shape.pairwiseIsoB cs = true := by
  cases cs with
  | nil => simp [Shape.childrenAllIso, Shape.pairwiseIsoB]
  | cons c cs =>
      simp only [Shape.childrenAllIso, Shape.pairwiseIsoB, List.all_eq_true, Shape.iso_iff_eq]
      constructor
      · intro h x hx y hy
        exact (h x hx).symm.trans (h y hy)
      · intro h x hx
        exact h c (List.mem_cons_self c cs) x hx

mutual

/-- The code's symmetric-node count equals the specification's
pairwise-isomorphism count, on every Shape. -/
theorem Shape.count_symmetries_eq_spec : ∀ s : Shape, s.count_symmetries = s.symNodesSpec
  | .leaf => rfl
  | .node cs => by
      have h := Shape.countSymList_eq_spec cs
      by_cases hb : Shape.childrenAllIso cs = true
      · have hb' : Shape.pairwiseIsoB cs = true := (Shape.childrenAllIso_iff cs).mp hb
        simp [Shape.count_symmetries, Shape.symNodesSpec, hb, hb', h]
      · have hb' : ¬ Shape.pairwiseIsoB cs = true :=
          fun hh => hb ((Shape.childrenAllIso_iff cs).mpr hh)
        simp [Shape.count_symmetries, Shape.symNodesSpec, hb, hb', h]

/-- List version of `count_symmetries_eq_spec`. -/
theorem Shape.countSymList_eq_spec :
    ∀ cs : List Shape, Shape.countSymList cs = Shape.symNodesSpecList cs
  | [] => rfl
  | c :: cs => by
      simp [Shape.countSymList, Shape.symNodesSpecList,
        Shape.count_symmetries_eq_spec c, Shape.countSymList_eq_spec cs]

end

/-- `PhyloTree` (PhyloTree.py): a Shape whose leaves carry a label.  The
Python class stores the label in `self.leaf` (present exactly on leaves); the
embedding carries it on the `leaf` constructor.  Labels (Python strings
ordered by `<`) are embedded as naturals with their order. -/
inductive PhyloTree where
  | leaf : Nat → PhyloTree
  | node : List PhyloTree → PhyloTree

mutual

/-- `PhyloTree.compare` (PhyloTree.py lines 32-60): overrides `Shape.compare`
by comparing two leaves through their labels; the rest is identical to the
Shape comparison (and recursive calls dispatch back here). -/
def PhyloTree.compare : PhyloTree → PhyloTree → Int
  | .leaf l₁, .leaf l₂ => if l₁ > l₂ then 1 else if l₁ < l₂ then -1 else 0
  | .leaf _, .node _ => -1
  | .node _, .leaf _ => 1
  | .node xs, .node ys =>
      if (xs.length : Int) - ys.length ≠ 0 then (xs.length : Int) - ys.length
      else PhyloTree.compareChildren xs ys

/-- Loop body of `PhyloTree.compare`. -/
def PhyloTree.compareChildren : List PhyloTree → List PhyloTree → Int
  | [], _ => 0
  | _ :: _, [] => 0
  | x :: xs, y :: ys =>
      if PhyloTree.compare x y ≠ 0 then PhyloTree.compare x y
      else PhyloTree.compareChildren xs ys

end

/-- `__le__` as inherited by `PhyloTree`, dispatching to its own compare. -/
def PhyloTree.le (s t : PhyloTree) : Prop := s.compare t ≤ 0

instance (s t : PhyloTree) : Decidable (PhyloTree.le s t) := by
  unfold PhyloTree.le; infer_instance

instance : DecidableRel PhyloTree.le :=
  fun s t => inferInstanceAs (Decidable (PhyloTree.compare s t ≤ 0))

/-- `iso` as inherited by `PhyloTree`: `self == T2` dispatches to the
label-aware `PhyloTree.compare`. -/
def PhyloTree.iso (s t : PhyloTree) : Bool := decide (s.compare t = 0)

mutual

/-- `count_leaves` as inherited by `PhyloTree` (structure only). -/
def PhyloTree.count_leaves : PhyloTree → Nat
  | .leaf _ => 1
  | .node cs => PhyloTree.countLeavesList cs

/-- Sum of leaf counts over a child list. -/
def PhyloTree.countLeavesList : List PhyloTree → Nat
  | [] => 0
  | c :: cs => c.count_leaves + PhyloTree.countLeavesList cs

end

/-- The inherited generator test, now with the label-aware `iso`. -/
def PhyloTree.childrenAllIso : List PhyloTree → Bool
  | [] => true
  | c :: cs => (c :: cs).all fun x => c.iso x

mutual

/-- `count_symmetries` as inherited by `PhyloTree`: the body is Shape.py
lines 146-156, but `iso` dispatches to the label-aware comparison. -/
def PhyloTree.count_symmetries : PhyloTree → Nat
  | .leaf _ => 0
  | .node cs =>
      if PhyloTree.childrenAllIso cs then 1 + PhyloTree.countSymList cs
      else PhyloTree.countSymList cs

/-- Sum of symmetric-node counts over a child list. -/
def PhyloTree.countSymList : List PhyloTree → Nat
  | [] => 0
  | c :: cs => c.count_symmetries + PhyloTree.countSymList cs

end

mutual

/-- `PhyloTree.shape` (PhyloTree.py lines 63-71): label-erasing projection.
The children are copied in their current order; no re-sorting happens. -/
def PhyloTree.shape : PhyloTree → Shape
  | .leaf _ => .leaf
  | .node cs => .node (PhyloTree.shapeList cs)

/-- `[x.shape() for x in children]`. -/
def PhyloTree.shapeList : List PhyloTree → List Shape
  | [] => []
  | c :: cs => c.shape :: PhyloTree.shapeList cs

end

mutual

/-- `PhyloTree.leaves` (PhyloTree.py lines 84-94): depth-first, left-to-right
enumeration of leaf labels. -/
def PhyloTree.leaves : PhyloTree → List Nat
  | .leaf l => [l]
  | .node cs => PhyloTree.leavesList cs

/-- Concatenation of the leaf enumerations of a child list. -/
def PhyloTree.leavesList : List PhyloTree → List Nat
  | [] => []
  | c :: cs => c.leaves ++ PhyloTree.leavesList cs

end

/-- `PhyloTree.labels` (PhyloTree.py lines 97-103): the leaf labels sorted
ascending; repetitions are kept. -/
def PhyloTree.labels (t : PhyloTree) : List Nat :=
  List.insertionSort (· ≤ ·) t.leaves

/-- `PhyloTree.is_phylo` (PhyloTree.py lines 106-115): no adjacent duplicate
in the sorted label list. -/
def PhyloTree.is_phylo (t : PhyloTree) : Bool :=
  go t.labels
where
  /-- Scan for an adjacent duplicate. -/
  go : List Nat → Bool
    | [] => true
    | [_] => true
    | x :: y :: rest => !(x == y) && go (y :: rest)

/-- `PhyloTree.__init__` (PhyloTree.py lines 17-29): the Shape assertion
(non-empty children) runs first, then `assert not is_leaf or leaf is not
None`.  A label passed alongside children is stored but never read, so the
embedding drops it. -/
def PhyloTree.make : Option Nat → Option (List PhyloTree) → Except PyError PhyloTree
  | none, none => .error .invalidTree
  | some l, none => .ok (.leaf l)
  | _, some [] => .error .invalidShape
  | _, some (c :: cs) => .ok (.node (c :: cs))

/-- Adjacent-sortedness of a PhyloTree child list under its own order. -/
def PhyloTree.childrenSortedB : List PhyloTree → Bool
  | [] => true
  | [_] => true
  | x :: y :: rest => decide (x.compare y ≤ 0) && PhyloTree.childrenSortedB (y :: rest)

mutual

/-- Canonical form for PhyloTrees: children sorted (label-aware) everywhere.
This is the invariant the ingestion adapter establishes. -/
def PhyloTree.isCanonicalB : PhyloTree → Bool
  | .leaf _ => true
  | .node cs => PhyloTree.childrenSortedB cs && PhyloTree.allCanonicalB cs

/-- Every member of the list is canonical. -/
def PhyloTree.allCanonicalB : List PhyloTree → Bool
  | [] => true
  | c :: cs => PhyloTree.isCanonicalB c && PhyloTree.allCanonicalB cs

end

/-- A generic parsed tree node as handed over by the external newick module:
an optional name and an ordered list of descendants. -/
inductive Node where
  | mk : Option Nat → List Node → Node

/-- Descendant list of a generic node. -/
def Node.descendants : Node → List Node
  | .mk _ ds => ds

/-- Name of a generic node. -/
def Node.name : Node → Option Nat
  | .mk nm _ => nm

mutual

/-- `newick_node_to_shape` (Shape.py lines 202-210): a node without
descendants becomes a leaf; otherwise the recursively built children are
sorted (Python's stable `sorted` by `__lt__`; ties are structurally equal
Shapes, so `insertionSort` of the non-strict order is the same list). -/
def newick_node_to_shape : Node → Shape
  | .mk _ [] => .leaf
  | .mk _ (d :: ds) => .node (List.insertionSort Shape.le (shapesOfNodes (d :: ds)))

/-- `[newick_node_to_shape(x) for x in N.descendants]`. -/
def shapesOfNodes : List Node → List Shape
  | [] => []
  | d :: ds => newick_node_to_shape d :: shapesOfNodes ds

end

mutual

/-- `newick_node_to_tree` (PhyloTree.py lines 134-142): a node without
descendants becomes a labelled leaf (`PhyloTree(N.name, None)`, whose
constructor asserts the name is present; `getD 0` is the total stand-in and
all inputs used here carry names); otherwise the recursively built children
are sorted under the label-aware order. -/
def newick_node_to_tree : Node → PhyloTree
  | .mk nm [] => .leaf (nm.getD 0)
  | .mk _ (d :: ds) => .node (List.insertionSort PhyloTree.le (treesOfNodes (d :: ds)))

/-- `[newick_node_to_tree(x) for x in N.descendants]`. -/
def treesOfNodes : List Node → List PhyloTree
  | [] => []
  | d :: ds => newick_node_to_tree d :: treesOfNodes ds

end

/-- The recursive child builder is just `List.map` of the node translation. -/
theorem shapesOfNodes_eq_map (l : List Node) :
    shapesOfNodes l = l.map newick_node_to_shape := by
  induction l with
  | nil => rfl
  | cons d ds ih => simp [shapesOfNodes, ih]

/-- `phi` (Probs.py lines 31-37): `a/2 * C(n+m, n) + (1-2a) * C(n+m-2, n-1)`,
evaluated at a rational value of the symbolic variable `a`.  Probs.py only
invokes it with `n, m ≥ 1` (guarded by `b*c != 0`), where the natural
subtractions agree with the integer ones. -/
def phi (n m : Nat) (α : ℚ) : ℚ :=
  α / 2 * ((n + m).choose n : ℚ) + (1 - 2 * α) * ((n + m - 2).choose (n - 1) : ℚ)

/-- `Gamma_alpha` (Probs.py lines 39-50): `1 - a` at 2, the factorial-like
recurrence above 2, and the literal integer 0 for `n ≤ 1`. -/
def Gamma_alpha : Nat → ℚ → ℚ
  | 0, _ => 0
  | 1, _ => 0
  | 2, α => 1 - α
  | n + 3, α => ((n + 3 : ℚ) - 1 - α) * Gamma_alpha (n + 2) α

/-- At the parameter value `-1` every `Gamma_alpha n` with `n ≥ 2` is
positive: each recurrence factor `n - 1 + 1` is. -/
theorem Gamma_alpha_neg_one_pos : ∀ n : Nat, 2 ≤ n → 0 < Gamma_alpha n (-1)
  | 0, h => absurd h (by omega)
  | 1, h => absurd h (by omega)
  | 2, _ => by norm_num [Gamma_alpha]
  | n + 3, _ => by
      have ih := Gamma_alpha_neg_one_pos (n + 2) (by omega)
      have hf : (0 : ℚ) < (n + 3 : ℚ) - 1 - (-1) := by
        linarith [Nat.cast_nonneg (α := ℚ) n]
      simpa [Gamma_alpha] using mul_pos hf ih

/-- The symbolic guard `Gamma == 0` of Probs.py: `Gamma_alpha(n)` is the
literal expression 0 exactly for `n < 2` (for `n ≥ 2` it is a product of
nonzero linear factors; semantically, it is nonzero at `a = -1`).  The
`prob*` functions below therefore branch on `n < 2`. -/
theorem Gamma_alpha_zero_iff (n : Nat) : (∀ α : ℚ, Gamma_alpha n α = 0) ↔ n < 2 := by
  constructor
  · intro h
    by_contra hn
    have h2 : 2 ≤ n := by omega
    have := Gamma_alpha_neg_one_pos n h2
    rw [h (-1)] at this
    exact lt_irrefl 0 this
  · intro h α
    interval_cases n <;> rfl

mutual

/-- `Pi` (Probs.py lines 13-29) on a `Shape` receiver: 1 on leaves, empty and
unary nodes; with at least two children, `phi` of the first two children's
leaf counts (guarded by `b*c != 0`) times the product of `Pi` over *all*
children. -/
def Pi : Shape → ℚ → ℚ
  | .leaf, _ => 1
  | .node [], _ => 1
  | .node [_], _ => 1
  | .node (x :: y :: rest), α =>
      if x.count_leaves * y.count_leaves ≠ 0 then
        phi x.count_leaves y.count_leaves α * PiList (x :: y :: rest) α
      else 1

/-- `prod(Pi(x) for x in T.children)`. -/
def PiList : List Shape → ℚ → ℚ
  | [], _ => 1
  | t :: ts, α => Pi t α * PiList ts α

end

mutual

/-- `Pi` (Probs.py lines 13-29) on a `PhyloTree` receiver: the same
duck-typed body, reading only `is_leaf`, `children` and `count_leaves`. -/
def PiT : PhyloTree → ℚ → ℚ
  | .leaf _, _ => 1
  | .node [], _ => 1
  | .node [_], _ => 1
  | .node (x :: y :: rest), α =>
      if x.count_leaves * y.count_leaves ≠ 0 then
        phi x.count_leaves y.count_leaves α * PiTList (x :: y :: rest) α
      else 1

/-- `prod(Pi(x) for x in T.children)` over PhyloTrees. -/
def PiTList : List PhyloTree → ℚ → ℚ
  | [], _ => 1
  | t :: ts, α => PiT t α * PiTList ts α

end

/-- Outcome of a `prob*` call: a symbolic expression in `a` (embedded as the
function evaluating it), or the string `"ERROR: division by zero"` that the
code returns when the symbolic `Gamma == 0` test fires.  `.factor()`
preserves the value of the expression, so it is invisible here. -/
inductive ProbResult where
  | ok : (ℚ → ℚ) → ProbResult
  | divisionByZero : ProbResult

/-- Evaluate a `prob*` outcome at a parameter value (`none` on the error). -/
def ProbResult.eval : ProbResult → ℚ → Option ℚ
  | .ok f, α => some (f α)
  | .divisionByZero, _ => none

/-- `prob_shape` (Probs.py lines 52-69): `not bool(T.children)` returns 1 on
leaves (and on an empty child list); otherwise `T1 = T.shape()` (the identity
on Shapes), `n = T1.count_leaves()`, the `Gamma == 0` guard, and
`2 ** (n-k-1) / Gamma * Pi(T)` with `k = T1.count_symmetries()`. -/
def prob_shape : Shape → ProbResult
  | .leaf => .ok fun _ => 1
  | .node [] => .ok fun _ => 1
  | .node (c :: cs) =>
      if ((Shape.node (c :: cs)).shape).count_leaves < 2 then .divisionByZero
      else
        .ok fun α =>
          2 ^ ((((Shape.node (c :: cs)).shape).count_leaves : ℤ)
                - (((Shape.node (c :: cs)).shape).count_symmetries : ℤ) - 1)
            / Gamma_alpha ((Shape.node (c :: cs)).shape).count_leaves α
            * Pi (Shape.node (c :: cs)) α

/-- `prob_tree` (Probs.py lines 71-86): 1 on leaves; otherwise
`2 ** (n-1) / (factorial(n) * Gamma) * Pi(T)` under the same guard. -/
def prob_tree : PhyloTree → ProbResult
  | .leaf _ => .ok fun _ => 1
  | .node [] => .ok fun _ => 1
  | .node (c :: cs) =>
      if (PhyloTree.node (c :: cs)).count_leaves < 2 then .divisionByZero
      else
        .ok fun α =>
          2 ^ (((PhyloTree.node (c :: cs)).count_leaves : ℤ) - 1)
            / ((((PhyloTree.node (c :: cs)).count_leaves).factorial : ℚ)
                * Gamma_alpha (PhyloTree.node (c :: cs)).count_leaves α)
            * PiT (PhyloTree.node (c :: cs)) α

/-- `prob` (Probs.py lines 88-107) on a `PhyloTree` receiver: 1 on leaves;
otherwise `2 ** (n-k-1) / (factorial(nlabels) * Gamma) * Pi(T)` where
`k = T.count_symmetries()` (label-aware) and `nlabels = len(T.labels())`
(the sorted label list, duplicates included). -/
def prob : PhyloTree → ProbResult
  | .leaf _ => .ok fun _ => 1
  | .node [] => .ok fun _ => 1
  | .node (c :: cs) =>
      if (PhyloTree.node (c :: cs)).count_leaves < 2 then .divisionByZero
      else
        .ok fun α =>
          2 ^ (((PhyloTree.node (c :: cs)).count_leaves : ℤ)
                - ((PhyloTree.node (c :: cs)).count_symmetries : ℤ) - 1)
            / ((((PhyloTree.node (c :: cs)).labels.length).factorial : ℚ)
                * Gamma_alpha (PhyloTree.node (c :: cs)).count_leaves α)
            * PiT (PhyloTree.node (c :: cs)) α

/-- `prob` (Probs.py lines 88-107) on a `Shape` receiver: the duck-typed body
falls back to `Shape.count_symmetries` and `Shape.labels() = [1]`. -/
def probS : Shape → ProbResult
  | .leaf => .ok fun _ => 1
  | .node [] => .ok fun _ => 1
  | .node (c :: cs) =>
      if (Shape.node (c :: cs)).count_leaves < 2 then .divisionByZero
      else
        .ok fun α =>
          2 ^ (((Shape.node (c :: cs)).count_leaves : ℤ)
                - ((Shape.node (c :: cs)).count_symmetries : ℤ) - 1)
            / ((((Shape.node (c :: cs)).labels.length).factorial : ℚ)
                * Gamma_alpha (Shape.node (c :: cs)).count_leaves α)
            * Pi (Shape.node (c :: cs)) α

mutual

/-- Number of labels yielded by `leaves` equals the leaf count. -/
theorem PhyloTree.leaves_length : ∀ t : PhyloTree, t.leaves.length = t.count_leaves
  | .leaf _ => rfl
  | .node cs => by
      simp [PhyloTree.leaves, PhyloTree.count_leaves, PhyloTree.leavesList_length cs]

/-- List version of `leaves_length`. -/
theorem PhyloTree.leavesList_length :
    ∀ cs : List PhyloTree, (PhyloTree.leavesList cs).length = PhyloTree.countLeavesList cs
  | [] => rfl
  | c :: cs => by
      simp [PhyloTree.leavesList, PhyloTree.countLeavesList,
        PhyloTree.leaves_length c, PhyloTree.leavesList_length cs]

end

/-- `len(T.labels())` is the leaf count of `T`: sorting keeps the length and
duplicates are not removed. -/
theorem PhyloTree.labels_length (t : PhyloTree) : t.labels.length = t.count_leaves := by
  unfold PhyloTree.labels
  rw [(List.perm_insertionSort _ _).length_eq, PhyloTree.leaves_length]

mutual

/-- Size measure on generic nodes, for strong induction. -/
def Node.size : Node → Nat
  | .mk _ ds => 1 + Node.sizeList ds

/-- Size measure on lists of generic nodes. -/
def Node.sizeList : List Node → Nat
  | [] => 0
  | d :: ds => Node.size d + Node.sizeList ds

end

/-- `Reorder N M`: `M` is obtained from `N` by permuting, at every node, the
child sequence (recursively).  This is the "any reordering of the child
sequences at its nodes" of the specification. -/
inductive Reorder : Node → Node → Prop where
  | intro : ∀ (nm : Option Nat) (ds mid ds' : List Node),
      List.Forall₂ Reorder ds mid → mid.Perm ds' → Reorder (.mk nm ds) (.mk nm ds')

/-- Elementwise reorderings of a child list translate to equal shape lists,
given the translation is reorder-invariant up to the size bound. -/
theorem reorderList_shapes_aux (k : Nat)
    (hk : ∀ N M, Node.size N ≤ k → Reorder N M →
      newick_node_to_shape N = newick_node_to_shape M) :
    ∀ ds mid : List Node, Node.sizeList ds ≤ k → List.Forall₂ Reorder ds mid →
      shapesOfNodes ds = shapesOfNodes mid := by
  intro ds
  induction ds with
  | nil =>
      intro mid _ hfor
      cases hfor
      rfl
  | cons d ds ihds =>
      intro mid hsz hfor
      cases hfor with
      | cons hd htail =>
          have hszd : Node.size d ≤ k := by
            simp [Node.sizeList] at hsz
            omega
          have hszl : Node.sizeList ds ≤ k := by
            simp [Node.sizeList] at hsz
            omega
          have h1 := hk d _ hszd hd
          have h2 := ihds _ hszl htail
          simp [shapesOfNodes, h1, h2]

/-- Reordering child sequences anywhere in a generic node does not change the
canonical Shape built by `newick_node_to_shape` (strong induction on size). -/
theorem reorder_toShape_aux :
    ∀ k : Nat, ∀ N M : Node, Node.size N ≤ k → Reorder N M →
      newick_node_to_shape N = newick_node_to_shape M := by
  intro k
  induction k with
  | zero =>
      intro N M hsz _
      cases N with
      | mk nm ds =>
          simp [Node.size] at hsz
  | succ k ih =>
      intro N M hsz h
      cases h with
      | intro nm ds mid ds' hfor hperm =>
          have hszl : Node.sizeList ds ≤ k := by
            simp only [Node.size] at hsz
            omega
          have hmaps := reorderList_shapes_aux k ih ds mid hszl hfor
          cases ds with
          | nil =>
              cases hfor
              have hnil : ds' = [] := hperm.symm.eq_nil
              subst hnil
              rfl
          | cons d ds0 =>
              have hlen1 : (d :: ds0).length = mid.length := hfor.length_eq
              have hlen2 : mid.length = ds'.length := hperm.length_eq
              cases mid with
              | nil => simp at hlen1
              | cons m ms =>
                  cases ds' with
                  | nil => simp at hlen2
                  | cons e es =>
                      have hperm2 : (shapesOfNodes (m :: ms)).Perm
                          (shapesOfNodes (e :: es)) := by
                        rw [shapesOfNodes_eq_map, shapesOfNodes_eq_map]
                        exact hperm.map _
                      simp only [newick_node_to_shape]
                      rw [hmaps, Shape.insertionSort_eq_of_perm hperm2]

/-- Parsed generic node for the Newick string `"(A,B);"` (A, B as 0, 1). -/
def nodeAB : Node := .mk none [.mk (some 0) [], .mk (some 1) []]

/-- Parsed generic node for the Newick string `"(A,A);"` (A as 0). -/
def nodeAA : Node := .mk none [.mk (some 0) [], .mk (some 0) []]

/-- Parsed generic node for the Newick string `"((A,B),(C,D));"` of Scenario
D (A..D as 0..3). -/
def nodeCD : Node :=
  .mk none [.mk none [.mk (some 0) [], .mk (some 1) []],
            .mk none [.mk (some 2) [], .mk (some 3) []]]

/-- Parsed generic node for the Newick string `"((A,(B,C)),(D,E));"`
(A..E as 0..4). -/
def nodeABCDE : Node :=
  .mk none [.mk none [.mk (some 0) [], .mk none [.mk (some 1) [], .mk (some 2) []]],
            .mk none [.mk (some 3) [], .mk (some 4) []]]

/-- A three-leaf generic input `(A,(B,C))`. -/
def nodeSwapA : Node :=
  .mk none [.mk (some 0) [], .mk none [.mk (some 1) [], .mk (some 2) []]]

/-- The same input with the root's children reordered: `((B,C),A)`. -/
def nodeSwapB : Node :=
  .mk none [.mk none [.mk (some 1) [], .mk (some 2) []], .mk (some 0) []]

/-- Claim C3 (code_bug evidence): the label-erasing projection `shape()` of
the adapter-canonical PhyloTree ingested from `"((A,(B,C)),(D,E));"` violates
the canonical-form invariant — the input tree is canonical for the
label-aware order, yet the projected Shape has its root children in strictly
descending Shape order because `PhyloTree.shape` copies children without
re-sorting them. -/
theorem C3_shape_projection_not_canonical :
    PhyloTree.isCanonicalB (newick_node_to_tree nodeABCDE) = true
    ∧ Shape.isCanonicalB ((newick_node_to_tree nodeABCDE).shape) = false :=
  ⟨by decide, by decide⟩

/-- Claim C4: `Shape.compare` induces a total order — exactly one of `A<B`,
`A==B`, `A>B` holds, the comparison value is antisymmetric under argument
swap, the order is transitive, and `iso` holds exactly when the comparison
returns zero. -/
theorem C4_total_order (A B C : Shape) :
    ((A.lt B ∧ ¬ A.equal B ∧ ¬ A.gt B) ∨ (¬ A.lt B ∧ A.equal B ∧ ¬ A.gt B) ∨
      (¬ A.lt B ∧ ¬ A.equal B ∧ A.gt B))
    ∧ A.compare B = - B.compare A
    ∧ (A.compare B ≤ 0 → B.compare C ≤ 0 → A.compare C ≤ 0)
    ∧ (A.iso B = true ↔ A.compare B = 0) := by
  refine ⟨?_, Shape.compare_neg A B, Shape.compare_le_trans A B C, ?_⟩
  · unfold Shape.lt Shape.equal Shape.gt
    rcases lt_trichotomy (A.compare B) 0 with h | h | h
    · exact Or.inl ⟨h, by omega, by omega⟩
    · exact Or.inr (Or.inl ⟨by omega, h, by omega⟩)
    · exact Or.inr (Or.inr ⟨by omega, by omega, h⟩)
  · simp [Shape.iso]

/-- Witness for C4: the transitivity component applied at concrete Shapes. -/
theorem C4_total_order_witness :
    Shape.compare Shape.leaf (Shape.node [Shape.leaf, Shape.leaf]) ≤ 0 :=
  (C4_total_order Shape.leaf (Shape.node [Shape.leaf])
      (Shape.node [Shape.leaf, Shape.leaf])).2.2.1 (by decide) (by decide)

/-- Claim C5: on any internal (hence non-single-leaf) tree whose leaf count
is at most 1 — so that the symbolic `Gamma_alpha` is the literal 0 — each of
`prob_shape`, `prob_tree` and `prob` (on either receiver type) returns the
distinguishable division-by-zero signal, not a numeric result. -/
theorem C5_gamma_zero_guard :
    ∀ (c : Shape) (cs : List Shape) (p : PhyloTree) (ps : List PhyloTree),
      (Shape.node (c :: cs)).count_leaves ≤ 1 →
      (PhyloTree.node (p :: ps)).count_leaves ≤ 1 →
      prob_shape (Shape.node (c :: cs)) = .divisionByZero
      ∧ probS (Shape.node (c :: cs)) = .divisionByZero
      ∧ prob_tree (PhyloTree.node (p :: ps)) = .divisionByZero
      ∧ prob (PhyloTree.node (p :: ps)) = .divisionByZero := by
  intro c cs p ps hs hp
  have h2 : (Shape.node (c :: cs)).count_leaves < 2 := by omega
  have h2' : (PhyloTree.node (p :: ps)).count_leaves < 2 := by omega
  refine ⟨?_, ?_, ?_, ?_⟩
  · simp [prob_shape, Shape.shape, h2]
  · simp [probS, h2]
  · simp [prob_tree, h2']
  · simp [prob, h2']

/-- Witness for C5: the unary chains `(A);` as Shape and as PhyloTree. -/
theorem C5_gamma_zero_guard_witness :
    prob_shape (Shape.node [Shape.leaf]) = .divisionByZero
    ∧ probS (Shape.node [Shape.leaf]) = .divisionByZero
    ∧ prob_tree (PhyloTree.node [PhyloTree.leaf 0]) = .divisionByZero
    ∧ prob (PhyloTree.node [PhyloTree.leaf 0]) = .divisionByZero :=
  C5_gamma_zero_guard Shape.leaf [] (PhyloTree.leaf 0) [] (by decide) (by decide)

/-- Claim C6: constructing a Shape from an empty-but-non-null child sequence
fails with the invalid-shape assertion, constructing a PhyloTree leaf without
a label fails with the invalid-tree assertion, and all other combinations
(null children, or a non-empty child sequence) construct successfully. -/
theorem C6_construction_guards :
    Shape.make (some []) = .error .invalidShape
    ∧ PhyloTree.make none none = .error .invalidTree
    ∧ Shape.make none = .ok Shape.leaf
    ∧ (∀ (c : Shape) (cs : List Shape),
        Shape.make (some (c :: cs)) = .ok (Shape.node (c :: cs)))
    ∧ (∀ l : Nat, PhyloTree.make (some l) none = .ok (.leaf l))
    ∧ (∀ (lopt : Option Nat) (c : PhyloTree) (cs : List PhyloTree),
        PhyloTree.make lopt (some (c :: cs)) = .ok (.node (c :: cs))) := by
  refine ⟨rfl, rfl, rfl, fun c cs => rfl, fun l => rfl, fun lopt c cs => ?_⟩
  cases lopt <;> rfl

/-- Claim C8 counterexample: `count_symmetries` on the PhyloTree ingested
from `"((A,B),(C,D));"` is 0, not 3 — the inherited symmetry test dispatches
to the label-aware comparison, under which `(A,B)` and `(C,D)` differ. -/
theorem C8_counterexample :
    (newick_node_to_tree nodeCD).count_symmetries = 0 ∧ (0 : Nat) ≠ 3 :=
  ⟨by decide, by decide⟩

/-- Claim C8 amended: on Shapes, `count_symmetries` counts exactly the
internal nodes whose children are pairwise isomorphic (summed recursively),
and the *Shape* ingested from `"((A,B),(C,D));"` counts 3; the *PhyloTree*
ingested from the same string counts 0, because the inherited test compares
children as labelled trees. -/
theorem C8_count_symmetries :
    (∀ S : Shape, S.count_symmetries = S.symNodesSpec)
    ∧ (newick_node_to_shape nodeCD).count_symmetries = 3
    ∧ (newick_node_to_tree nodeCD).count_symmetries = 0 :=
  ⟨Shape.count_symmetries_eq_spec, by decide, by decide⟩

/-- Claim C9 (code_bug evidence): `sort()` on the already-canonical two-leaf
Shape does not complete without error — the method body reads the unbound
name `children`, so every internal node raises `NameError`; only a leaf
completes (trivially unchanged). -/
theorem C9_sort_raises :
    Shape.isCanonicalB (Shape.node [Shape.leaf, Shape.leaf]) = true
    ∧ Shape.sortMethod (Shape.node [Shape.leaf, Shape.leaf]) = .error .nameError
    ∧ (∀ cs : List Shape, Shape.sortMethod (Shape.node cs) = .error .nameError)
    ∧ Shape.sortMethod Shape.leaf = .ok () :=
  ⟨by decide, rfl, fun _ => rfl, rfl⟩

/-- Claim C1 counterexample: for the duplicate-label tree ingested from
`"(A,A);"` the code's `prob` divides by `nlabels! = 2!` with
`nlabels = len(labels()) = 2` (duplicates kept), returning 1/2 at `a = 0`,
while the claimed formula with *distinct* labels (`dedup` cardinality 1)
evaluates to 1. -/
theorem C1_counterexample :
    (prob (newick_node_to_tree nodeAA)).eval 0 = some (1/2)
    ∧ (newick_node_to_tree nodeAA).labels.dedup.length = 1
    ∧ 2 ^ (((newick_node_to_tree nodeAA).count_leaves : ℤ)
          - ((newick_node_to_tree nodeAA).count_symmetries : ℤ) - 1)
        / ((((newick_node_to_tree nodeAA).labels.dedup.length).factorial : ℚ)
            * Gamma_alpha (newick_node_to_tree nodeAA).count_leaves 0)
        * PiT (newick_node_to_tree nodeAA) 0 = 1
    ∧ (1/2 : ℚ) ≠ 1 := by
  have hAA : newick_node_to_tree nodeAA = .node [.leaf 0, .leaf 0] := rfl
  have hn : (newick_node_to_tree nodeAA).count_leaves = 2 := by decide
  have hk : (newick_node_to_tree nodeAA).count_symmetries = 1 := by decide
  have hl : (newick_node_to_tree nodeAA).labels.length = 2 := by decide
  have hd : (newick_node_to_tree nodeAA).labels.dedup.length = 1 := by decide
  have hPi : PiT (newick_node_to_tree nodeAA) 0 = 1 := by
    rw [hAA]
    norm_num [PiT, PiTList, phi, PhyloTree.count_leaves, PhyloTree.countLeavesList]
  refine ⟨?_, hd, ?_, by norm_num⟩
  · rw [hAA] at hPi ⊢
    rw [hAA] at hn hk hl
    simp only [prob, hn, hk, hl]
    norm_num [ProbResult.eval, Gamma_alpha, Nat.factorial, hPi]
  · rw [hn, hk, hd, hPi]
    norm_num [Gamma_alpha, Nat.factorial]

/-- Claim C1 amended: for every PhyloTree that is not a single leaf and whose
leaf count keeps the symbolic `Gamma_alpha` nonzero, `prob` returns
`2^(n−k−1) / (nlabels! · Γ) · Pi(T)` where `nlabels` is the length of the
full sorted label list (multiplicities kept), which equals the leaf count
`n` — not the number of distinct labels. -/
theorem C1_prob_formula :
    ∀ (c : PhyloTree) (cs : List PhyloTree),
      (∃ α : ℚ, Gamma_alpha (PhyloTree.node (c :: cs)).count_leaves α ≠ 0) →
      prob (PhyloTree.node (c :: cs)) =
        ProbResult.ok (fun α =>
          2 ^ (((PhyloTree.node (c :: cs)).count_leaves : ℤ)
                - ((PhyloTree.node (c :: cs)).count_symmetries : ℤ) - 1)
            / ((((PhyloTree.node (c :: cs)).labels.length).factorial : ℚ)
                * Gamma_alpha (PhyloTree.node (c :: cs)).count_leaves α)
            * PiT (PhyloTree.node (c :: cs)) α)
      ∧ (PhyloTree.node (c :: cs)).labels.length
          = (PhyloTree.node (c :: cs)).count_leaves := by
  intro c cs hγ
  have h2 : ¬ (PhyloTree.node (c :: cs)).count_leaves < 2 := by
    intro hlt
    obtain ⟨α, hα⟩ := hγ
    exact hα ((Gamma_alpha_zero_iff _).mpr hlt α)
  exact ⟨by simp [prob, h2], PhyloTree.labels_length _⟩

/-- Witness for C1 (amended): the proper two-leaf tree `(A,B)`. -/
theorem C1_prob_formula_witness :
    (prob (PhyloTree.node [.leaf 0, .leaf 1])).eval 0 = some 1
    ∧ (PhyloTree.node [PhyloTree.leaf 0, PhyloTree.leaf 1]).labels.length = 2 := by
  obtain ⟨h1, h2⟩ := C1_prob_formula (.leaf 0) [.leaf 1]
    ⟨-1, by norm_num [Gamma_alpha, PhyloTree.count_leaves, PhyloTree.countLeavesList]⟩
  have hn : (PhyloTree.node [PhyloTree.leaf 0, PhyloTree.leaf 1]).count_leaves = 2 := by
    decide
  have hk : (PhyloTree.node [PhyloTree.leaf 0, PhyloTree.leaf 1]).count_symmetries = 0 := by
    decide
  have hl : (PhyloTree.node [PhyloTree.leaf 0, PhyloTree.leaf 1]).labels.length = 2 := by
    decide
  have hPi : PiT (PhyloTree.node [.leaf 0, .leaf 1]) 0 = 1 := by
    norm_num [PiT, PiTList, phi, PhyloTree.count_leaves, PhyloTree.countLeavesList]
  constructor
  · rw [h1]
    simp only [hn, hk, hl]
    norm_num [ProbResult.eval, Gamma_alpha, Nat.factorial, hPi]
  · rw [h2]
    decide

/-- Claim C2 counterexample: at `a = 1/2` the code's `prob_tree` on the tree
ingested from `"(A,B);"` returns 1, while the claimed symbolic result
`1/(1-a)` evaluates to 2; and `Pi` of that tree evaluates to `1/2`, i.e. it
is `1 - a`, not 1. -/
theorem C2_counterexample :
    (prob_tree (newick_node_to_tree nodeAB)).eval (1/2) = some 1
    ∧ (1 : ℚ) / (1 - 1/2) = 2
    ∧ PiT (newick_node_to_tree nodeAB) (1/2) = 1/2
    ∧ (1 : ℚ) ≠ 2 ∧ (1/2 : ℚ) ≠ 1 := by
  have hAB : newick_node_to_tree nodeAB = .node [.leaf 0, .leaf 1] := rfl
  refine ⟨?_, by norm_num, ?_, by norm_num, by norm_num⟩
  · rw [hAB]
    norm_num [prob_tree, ProbResult.eval, PhyloTree.count_leaves,
      PhyloTree.countLeavesList, Gamma_alpha, PiT, PiTList, phi, Nat.factorial]
  · rw [hAB]
    norm_num [PiT, PiTList, phi, PhyloTree.count_leaves, PhyloTree.countLeavesList]

/-- Claim C2 amended: for the two-leaf phylogenetic tree ingested from
`"(A,B);"`, `prob_tree` returns the symbolic expression
`2^1/(2!·(1−a))·(1−a)`, which simplifies to 1 wherever `1−a ≠ 0`; `Pi` of
that tree is `1−a` (`phi(1,1) = a/2·2 + (1−2a) = 1−a`), not 1. -/
theorem C2_prob_tree_cherry :
    ∀ α : ℚ, 1 - α ≠ 0 →
      (prob_tree (newick_node_to_tree nodeAB)).eval α = some 1
      ∧ PiT (newick_node_to_tree nodeAB) α = 1 - α := by
  intro α h
  have hAB : newick_node_to_tree nodeAB = .node [.leaf 0, .leaf 1] := rfl
  have hPi : PiT (PhyloTree.node [.leaf 0, .leaf 1]) α = 1 - α := by
    norm_num [PiT, PiTList, phi, PhyloTree.count_leaves, PhyloTree.countLeavesList]
    ring
  constructor
  · rw [hAB]
    simp only [prob_tree, PhyloTree.count_leaves, PhyloTree.countLeavesList]
    norm_num [ProbResult.eval, Gamma_alpha, Nat.factorial, hPi]
    field_simp
  · rw [hAB]
    exact hPi

/-- Witness for C2 (amended): evaluation at `a = 0`. -/
theorem C2_prob_tree_cherry_witness :
    (prob_tree (newick_node_to_tree nodeAB)).eval 0 = some 1
    ∧ PiT (newick_node_to_tree nodeAB) 0 = 1 - 0 :=
  C2_prob_tree_cherry 0 (by norm_num)

/-- Claim C7: ingesting a generic parsed node and ingesting any reordering of
the child sequences at its nodes produce Shapes comparing equal (indeed the
identical canonical Shape). -/
theorem C7_reorder_equal_shapes :
    ∀ N M : Node, Reorder N M →
      (newick_node_to_shape N).compare (newick_node_to_shape M) = 0 := by
  intro N M h
  rw [reorder_toShape_aux (Node.size N) N M le_rfl h]
  exact Shape.compare_self _

/-- Witness for C7: `(A,(B,C))` against its root-reordered form `((B,C),A)`.
The explicit `Reorder` derivation swaps the root's two children. -/
theorem C7_reorder_equal_shapes_witness :
    (newick_node_to_shape nodeSwapA).compare (newick_node_to_shape nodeSwapB) = 0 := by
  have rA : Reorder (Node.mk (some 0) []) (Node.mk (some 0) []) :=
    .intro (some 0) [] [] [] .nil (List.Perm.refl [])
  have rB : Reorder (Node.mk (some 1) []) (Node.mk (some 1) []) :=
    .intro (some 1) [] [] [] .nil (List.Perm.refl [])
  have rC : Reorder (Node.mk (some 2) []) (Node.mk (some 2) []) :=
    .intro (some 2) [] [] [] .nil (List.Perm.refl [])
  have rBC : Reorder (Node.mk none [Node.mk (some 1) [], Node.mk (some 2) []])
      (Node.mk none [Node.mk (some 1) [], Node.mk (some 2) []]) :=
    .intro none _ _ _ (.cons rB (.cons rC .nil)) (List.Perm.refl _)
  exact C7_reorder_equal_shapes nodeSwapA nodeSwapB
    (.intro none _ _ _ (.cons rA (.cons rBC .nil))
      (List.Perm.swap (Node.mk none [Node.mk (some 1) [], Node.mk (some 2) []])
        (Node.mk (some 0) []) []))

/-- Claim C10: on a Shape receiver, `prob` computes exactly `prob_shape`:
`labels()` is `[1]` so the extra `nlabels! = 1! = 1` factor is neutral, and
`shape()` is the identity; the single-leaf and division-by-zero branches
coincide as well. -/
theorem C10_prob_agrees_with_prob_shape : ∀ S : Shape, probS S = prob_shape S := by
  intro S
  match S with
  | .leaf => rfl
  | .node [] => rfl
  | .node (c :: cs) =>
      by_cases h : (Shape.node (c :: cs)).count_leaves < 2
      · simp [probS, prob_shape, Shape.shape, h]
      · simp only [probS, prob_shape, Shape.shape, if_neg h]
        refine congrArg ProbResult.ok (funext fun α => ?_)
        simp [Shape.labels, Nat.factorial]

end ProbAlpha
